import Mathlib

/-!
Shallow embedding of the two utility scripts of the repository
(scripts/classify_meaningful_images.py and scripts/extractimages.py),
together with theorems settling the specification claims about them.

Machine strings are modelled with Lean strings; the Python methods
str.strip / str.upper / str.lower are modelled over the ASCII range
(Char.toUpper / Char.toLower act only on ASCII letters, which is enough
to decide every comparison the scripts perform, since the comparison
targets are the ASCII strings "SI" and the lower-case extension list).
-/

set_option autoImplicit false

namespace DataUtils

/-- Whitespace set of Python str.strip (ASCII part): space, tab, LF, VT, FF, CR. -/
def isPySpace (c : Char) : Bool :=
  c.toNat = 32 || (9 ≤ c.toNat && c.toNat ≤ 13)

/-- Model of Python str.strip: drop leading and trailing whitespace. -/
def pyStrip (s : String) : String :=
  String.mk (((s.toList.dropWhile isPySpace).reverse.dropWhile isPySpace).reverse)

/-- Model of Python str.upper (ASCII letters). -/
def pyUpper (s : String) : String :=
  String.mk (s.toList.map Char.toUpper)

/-- Model of Python str.lower (ASCII letters). -/
def pyLower (s : String) : String :=
  String.mk (s.toList.map Char.toLower)

/-- Outcome of the remote chat-completion call made by is_meaningful_image
(classify_meaningful_images.py lines 65-91).  On success the relevant data is
the text content of the first choice of the response
(response.choices[0].message.content); any exception raised by the request or
while reading that field (empty choices, missing content, network error) is
the failure constructor. -/
inductive ApiResult where
  | success (content : String)
  | failure
deriving DecidableEq

/-- Embedding of is_meaningful_image (classify_meaningful_images.py lines
47-94): on a successful response the content is stripped, upper-cased and
compared to "SI" (lines 90-91); any exception is caught by the except block
and the function returns False (lines 92-94). -/
def is_meaningful_image : ApiResult → Bool
  | .success content => pyUpper (pyStrip content) == "SI"
  | .failure => false

/-! Pipeline B image model: a decoded raster image is a list of channel
bands, each band a list of 8-bit sample values (Nat, well formed when all
values are at most 255).  The three constructors model the PIL modes the
script distinguishes: RGBA (line 11), RGB and single-band images (line 20). -/

inductive PImage where
  | rgba (r g b a : List Nat)
  | rgb (r g b : List Nat)
  | gray (v : List Nat)
deriving DecidableEq

/-- Per-band complement map of ImageOps.invert: each 8-bit sample value v is
replaced by 255 - v. -/
def invertBand (band : List Nat) : List Nat :=
  band.map (fun v => 255 - v)

/-- Model of the library call ImageOps.invert, which negates every band of an
image without an alpha channel; it is not defined on alpha modes (the script
never applies it to one). -/
def ImageOps_invert : PImage → Option PImage
  | .rgb r g b => some (.rgb (invertBand r) (invertBand g) (invertBand b))
  | .gray v => some (.gray (invertBand v))
  | .rgba _ _ _ _ => none

/-- Embedding of invert_image (extractimages.py lines 7-20).  For an RGBA
image the script splits off the alpha band, inverts the RGB sub-image with
ImageOps.invert and re-merges the original alpha band (lines 11-18); any
other image is passed to ImageOps.invert whole (line 20). -/
def invert_image : PImage → PImage
  | .rgba r g b a => .rgba (invertBand r) (invertBand g) (invertBand b) a
  | .rgb r g b => .rgb (invertBand r) (invertBand g) (invertBand b)
  | .gray v => .gray (invertBand v)

/-- Alpha band of an image, when it has one. -/
def alphaBand : PImage → Option (List Nat)
  | .rgba _ _ _ a => some a
  | _ => none

/-- Whether the image carries an alpha channel. -/
def hasAlpha (img : PImage) : Bool :=
  (alphaBand img).isSome

/-- Color (non-alpha) bands of an image. -/
def colorBands : PImage → List (List Nat)
  | .rgba r g b _ => [r, g, b]
  | .rgb r g b => [r, g, b]
  | .gray v => [v]

/-- An image is well formed when every sample value of every band fits in
8 bits. -/
def wellFormedImage : PImage → Bool
  | .rgba r g b a => (r ++ g ++ b ++ a).all (fun v => v ≤ 255)
  | .rgb r g b => (r ++ g ++ b).all (fun v => v ≤ 255)
  | .gray v => v.all (fun v => v ≤ 255)

lemma invertBand_involutive (band : List Nat) (h : ∀ v ∈ band, v ≤ 255) :
    invertBand (invertBand band) = band := by
  induction band with
  | nil => rfl
  | cons v t ih =>
    have hv : v ≤ 255 := h v (by simp)
    have ht : invertBand (invertBand t) = t := ih (fun x hx => h x (by simp [hx]))
    simp only [invertBand, List.map_cons] at ht ⊢
    rw [Nat.sub_sub_self hv, ht]

/-- C1: is_meaningful_image answers true exactly when the first choice text,
stripped of surrounding whitespace and upper-cased, is the string "SI"; in
particular it is false on "si no", the empty string, "NO" and "Sí claro",
and true on "SI", "si" and " si ". -/
theorem classifier_true_iff_SI :
    (∀ t : String,
      is_meaningful_image (ApiResult.success t) = (pyUpper (pyStrip t) == "SI"))
    ∧ is_meaningful_image (ApiResult.success "SI") = true
    ∧ is_meaningful_image (ApiResult.success "si") = true
    ∧ is_meaningful_image (ApiResult.success " si ") = true
    ∧ is_meaningful_image (ApiResult.success "si no") = false
    ∧ is_meaningful_image (ApiResult.success "") = false
    ∧ is_meaningful_image (ApiResult.success "NO") = false
    ∧ is_meaningful_image (ApiResult.success "Sí claro") = false := by
  refine ⟨fun t => rfl, ?_, ?_, ?_, ?_, ?_, ?_, ?_⟩ <;> decide

/-- C2: when the remote call or the parsing of its response raises, the
except block of is_meaningful_image turns the exception into the return
value false; the embedding of the function is total, so no exception
reaches the caller. -/
theorem classifier_false_on_failure :
    is_meaningful_image ApiResult.failure = false := rfl

/-- C4: invert_image leaves the alpha band byte-for-byte identical, inverts
every color band with the per-band complement map, and on an image without
an alpha channel agrees with applying ImageOps.invert to the whole image
directly. -/
theorem invert_image_alpha_preserved :
    (∀ img : PImage, alphaBand (invert_image img) = alphaBand img)
    ∧ (∀ img : PImage,
        colorBands (invert_image img) = (colorBands img).map invertBand)
    ∧ (∀ img : PImage, hasAlpha img = false →
        ImageOps_invert img = some (invert_image img)) := by
  refine ⟨fun img => ?_, fun img => ?_, fun img h => ?_⟩
  · cases img <;> rfl
  · cases img <;> rfl
  · cases img with
    | rgba r g b a => simp [hasAlpha, alphaBand] at h
    | rgb r g b => rfl
    | gray v => rfl

/-- Witness for C4 at a concrete alpha-free image. -/
theorem invert_image_alpha_preserved_witness :
    ImageOps_invert (PImage.gray [0, 7, 255])
      = some (invert_image (PImage.gray [0, 7, 255])) :=
  invert_image_alpha_preserved.2.2 (PImage.gray [0, 7, 255]) rfl

/-- C5: on well formed images (all samples at most 255) color inversion is
an involution: applying invert_image twice returns the original image, the
alpha band included. -/
theorem invert_image_involutive (img : PImage)
    (h : wellFormedImage img = true) :
    invert_image (invert_image img) = img := by
  cases img with
  | rgba r g b a =>
    simp only [wellFormedImage, List.all_append, Bool.and_eq_true,
      List.all_eq_true, decide_eq_true_eq] at h
    simp only [invert_image]
    rw [invertBand_involutive r h.1.1.1, invertBand_involutive g h.1.1.2,
      invertBand_involutive b h.1.2]
  | rgb r g b =>
    simp only [wellFormedImage, List.all_append, Bool.and_eq_true,
      List.all_eq_true, decide_eq_true_eq] at h
    simp only [invert_image]
    rw [invertBand_involutive r h.1.1, invertBand_involutive g h.1.2,
      invertBand_involutive b h.2]
  | gray v =>
    simp only [wellFormedImage, List.all_eq_true, decide_eq_true_eq] at h
    simp only [invert_image]
    rw [invertBand_involutive v h]

/-- Witness for C5 at a concrete RGBA image. -/
theorem invert_image_involutive_witness :
    invert_image (invert_image (PImage.rgba [0] [128] [255] [7]))
      = PImage.rgba [0] [128] [255] [7] :=
  invert_image_involutive (PImage.rgba [0] [128] [255] [7]) rfl

/-! Pipeline A batch loop.  A directory entry seen by process_images is
modelled by its name and its pathlib suffix (the extension with the leading
dot, or the empty string); what the outside world does to one file during
its loop iteration is modelled by a per-file outcome: either the read of
the file bytes raises (open / encode_image_to_base64), or the remote call
yields an ApiResult and, when the file is then copied, shutil.copy2 either
succeeds or raises. -/

structure FileEntry where
  name : String
  suffix : String
deriving DecidableEq

/-- Per-file outcome of the body of the loop of process_images. -/
inductive FileOutcome where
  | encodeRaises
  | api (r : ApiResult) (copyRaises : Bool)
deriving DecidableEq

/-- The allow-list VALID_IMAGE_EXTENSIONS (classify_meaningful_images.py
line 26). -/
def VALID_IMAGE_EXTENSIONS : List String :=
  [".jpg", ".jpeg", ".png", ".bmp", ".gif"]

/-- The membership test of line 132: file_path.suffix.lower() in
VALID_IMAGE_EXTENSIONS. -/
def hasValidExtension (f : FileEntry) : Bool :=
  VALID_IMAGE_EXTENSIONS.contains (pyLower f.suffix)

/-- Whether the outcome reaches the classifier (the read did not raise). -/
def encodeSucceeds : FileOutcome → Bool
  | .encodeRaises => false
  | .api _ _ => true

/-- Whether the outcome ends with the file copied into the output folder:
the read succeeded, the classifier answered true and shutil.copy2 did not
raise. -/
def copySucceeds : FileOutcome → Bool
  | .encodeRaises => false
  | .api r copyRaises => is_meaningful_image r && !copyRaises

/-- Observable state of one run of the loop of process_images: the two
counters of lines 128-129 plus the lists of file names that were read,
sent to the classifier, and copied into the output folder. -/
structure PState where
  processed : Nat
  meaningful : Nat
  readFiles : List String
  classifiedFiles : List String
  copied : List String
deriving DecidableEq

/-- One iteration of the loop of process_images (lines 131-149): entries
whose lowered suffix is outside the allow-list are skipped entirely; for
the rest, processed_count is incremented first, then the file is read and
classified, and on a true answer copied, after which meaningful_count is
incremented; any exception raised in the body is caught by the except
block of line 148 and the iteration ends with the state reached so far. -/
def processFile (outcome : FileEntry → FileOutcome) (s : PState)
    (f : FileEntry) : PState :=
  if hasValidExtension f then
    let s1 : PState :=
      { s with processed := s.processed + 1,
               readFiles := s.readFiles ++ [f.name] }
    match outcome f with
    | .encodeRaises => s1
    | .api r copyRaises =>
      let s2 : PState :=
        { s1 with classifiedFiles := s1.classifiedFiles ++ [f.name] }
      if is_meaningful_image r then
        if copyRaises then s2
        else
          { s2 with meaningful := s2.meaningful + 1,
                    copied := s2.copied ++ [f.name] }
      else s2
  else s

/-- Initial counters of process_images (lines 128-129). -/
def initState : PState :=
  { processed := 0, meaningful := 0, readFiles := [],
    classifiedFiles := [], copied := [] }

/-- The whole loop of process_images over the directory entries, in
enumeration order. -/
def runProcess (outcome : FileEntry → FileOutcome)
    (files : List FileEntry) : PState :=
  files.foldl (processFile outcome) initState

/-- Embedding of process_images itself (lines 96-155): if the input folder
is not a directory a ValueError is raised at line 115, before the client is
configured, before the output folder is created by the makedirs call of
line 124 and before any file is touched; otherwise the run returns the
final loop state paired with the fact that the output folder was ensured
to exist. -/
def process_images (isDir : String → Bool) (input_folder : String)
    (files : List FileEntry) (outcome : FileEntry → FileOutcome) :
    Except String (PState × Bool) :=
  if isDir input_folder then
    Except.ok (runProcess outcome files, true)
  else
    Except.error ("La carpeta de entrada no existe: " ++ input_folder)

/-- Entries that pass the extension test. -/
def validFiles (files : List FileEntry) : List FileEntry :=
  files.filter hasValidExtension

/-- Entries that pass the extension test and reach the classifier. -/
def classifiedOf (outcome : FileEntry → FileOutcome)
    (files : List FileEntry) : List FileEntry :=
  files.filter (fun f => hasValidExtension f && encodeSucceeds (outcome f))

/-- Entries that end up copied into the output folder. -/
def copiedOf (outcome : FileEntry → FileOutcome)
    (files : List FileEntry) : List FileEntry :=
  files.filter (fun f => hasValidExtension f && copySucceeds (outcome f))

lemma foldl_processFile_spec (outcome : FileEntry → FileOutcome) :
    ∀ (files : List FileEntry) (s : PState),
      files.foldl (processFile outcome) s =
        { processed := s.processed + (validFiles files).length,
          meaningful := s.meaningful + (copiedOf outcome files).length,
          readFiles := s.readFiles ++ (validFiles files).map FileEntry.name,
          classifiedFiles :=
            s.classifiedFiles ++ (classifiedOf outcome files).map FileEntry.name,
          copied := s.copied ++ (copiedOf outcome files).map FileEntry.name } := by
  intro files
  induction files with
  | nil => intro s; simp [validFiles, classifiedOf, copiedOf]
  | cons f t ih =>
    intro s
    rw [List.foldl_cons, ih]
    simp only [validFiles, classifiedOf, copiedOf, List.filter_cons] at *
    by_cases hv : hasValidExtension f
    · simp only [hv, Bool.true_and, processFile, if_pos hv]
      cases ho : outcome f with
      | encodeRaises =>
        simp [encodeSucceeds, copySucceeds, ho, List.append_assoc,
          Nat.add_assoc, Nat.add_comm 1]
      | api r copyRaises =>
        by_cases hm : is_meaningful_image r
        · cases hc : copyRaises with
          | true =>
            simp [encodeSucceeds, copySucceeds, ho, hm, hc,
              List.append_assoc, Nat.add_assoc, Nat.add_comm 1]
          | false =>
            simp [encodeSucceeds, copySucceeds, ho, hm, hc,
              List.append_assoc, Nat.add_assoc, Nat.add_comm 1]
        · simp [encodeSucceeds, copySucceeds, ho, hm, List.append_assoc,
            Nat.add_assoc, Nat.add_comm 1]
    · simp [hv, processFile]

lemma runProcess_spec (outcome : FileEntry → FileOutcome)
    (files : List FileEntry) :
    runProcess outcome files =
      { processed := (validFiles files).length,
        meaningful := (copiedOf outcome files).length,
        readFiles := (validFiles files).map FileEntry.name,
        classifiedFiles := (classifiedOf outcome files).map FileEntry.name,
        copied := (copiedOf outcome files).map FileEntry.name } := by
  rw [runProcess, foldl_processFile_spec]
  simp [initState]

lemma mem_name_map_filter (p : FileEntry → Bool) (files : List FileEntry)
    (f : FileEntry) (hnd : (files.map FileEntry.name).Nodup) (hf : f ∈ files) :
    f.name ∈ (files.filter p).map FileEntry.name ↔ p f = true := by
  constructor
  · intro h
    obtain ⟨g, hg, hname⟩ := List.mem_map.1 h
    have hg2 := List.mem_filter.1 hg
    have hgf : g = f := List.inj_on_of_nodup_map hnd hg2.1 hf hname
    exact hgf ▸ hg2.2
  · intro hp
    exact List.mem_map.2 ⟨f, List.mem_filter.2 ⟨hf, hp⟩, rfl⟩

/-- C3: in a run of the loop of process_images over entries with pairwise
distinct names, an entry whose lowered extension is outside the allow-list
is never read, never classified and never copied to the output folder,
while an entry on the allow-list is read, and classified as soon as its
read does not raise. -/
theorem process_images_extension_filter
    (files : List FileEntry) (outcome : FileEntry → FileOutcome)
    (f : FileEntry) (hnd : (files.map FileEntry.name).Nodup)
    (hf : f ∈ files) :
    (hasValidExtension f = false →
        f.name ∉ (runProcess outcome files).readFiles
        ∧ f.name ∉ (runProcess outcome files).classifiedFiles
        ∧ f.name ∉ (runProcess outcome files).copied)
    ∧ (hasValidExtension f = true →
        f.name ∈ (runProcess outcome files).readFiles)
    ∧ (hasValidExtension f = true → encodeSucceeds (outcome f) = true →
        f.name ∈ (runProcess outcome files).classifiedFiles) := by
  rw [runProcess_spec]
  dsimp only
  simp only [validFiles, classifiedOf, copiedOf]
  refine ⟨fun hval => ⟨?_, ?_, ?_⟩, fun hval => ?_, fun hval henc => ?_⟩
  · intro hmem
    rw [mem_name_map_filter _ _ _ hnd hf] at hmem
    simp [hval] at hmem
  · intro hmem
    rw [mem_name_map_filter _ _ _ hnd hf] at hmem
    simp [hval] at hmem
  · intro hmem
    rw [mem_name_map_filter _ _ _ hnd hf] at hmem
    simp [hval] at hmem
  · exact (mem_name_map_filter _ _ _ hnd hf).2 hval
  · exact (mem_name_map_filter _ _ _ hnd hf).2 (by simp [hval, henc])

/-- Concrete directory used by several witnesses: one allow-listed image
and one entry with a non-image extension. -/
def sampleFiles : List FileEntry :=
  [{ name := "photo.jpg", suffix := ".jpg" }, { name := "doc.txt", suffix := ".txt" }]

/-- Outcome oracle where every remote call answers "SI" and nothing raises. -/
def sampleOutcome : FileEntry → FileOutcome :=
  fun _ => FileOutcome.api (ApiResult.success "SI") false

/-- Outcome oracle where reading every file raises. -/
def raisingOutcome : FileEntry → FileOutcome :=
  fun _ => FileOutcome.encodeRaises

/-- Witness for C3: the entry doc.txt is neither read nor classified nor
copied. -/
theorem process_images_extension_filter_witness :
    "doc.txt" ∉ (runProcess sampleOutcome sampleFiles).readFiles
    ∧ "doc.txt" ∉ (runProcess sampleOutcome sampleFiles).classifiedFiles
    ∧ "doc.txt" ∉ (runProcess sampleOutcome sampleFiles).copied := by
  have h := process_images_extension_filter sampleFiles sampleOutcome
    { name := "doc.txt", suffix := ".txt" } (by decide) (by decide)
  exact h.1 (by decide)

/-- C7: whatever the per-file outcomes are — in particular when any subset
of the files raises while being read, classified or copied — every
allow-listed entry is still counted as processed and still read: the loop
body catches per-file exceptions and the batch continues; runProcess is a
total function, so no per-file exception escapes process_images. -/
theorem process_images_isolates_failures
    (files : List FileEntry) (outcome : FileEntry → FileOutcome) :
    (runProcess outcome files).processed = (validFiles files).length
    ∧ (runProcess outcome files).readFiles = (validFiles files).map FileEntry.name
    ∧ (∀ f, f ∈ files → hasValidExtension f = true →
        f.name ∈ (runProcess outcome files).readFiles) := by
  rw [runProcess_spec]
  refine ⟨rfl, rfl, fun f hf hval => ?_⟩
  exact List.mem_map.2 ⟨f, List.mem_filter.2 ⟨hf, hval⟩, rfl⟩

/-- Witness for C7: with every read raising, both entries are handled and
the allow-listed one is still processed and read. -/
theorem process_images_isolates_failures_witness :
    (runProcess raisingOutcome sampleFiles).processed
      = (validFiles sampleFiles).length
    ∧ "photo.jpg" ∈ (runProcess raisingOutcome sampleFiles).readFiles := by
  have h := process_images_isolates_failures sampleFiles raisingOutcome
  exact ⟨h.1, h.2.2 { name := "photo.jpg", suffix := ".jpg" } (by decide) (by decide)⟩

/-- C8: when the input folder is not a directory, process_images raises the
ValueError of line 115 before anything else happens: the result is the
error alone, so no output folder is created and no file is read,
classified or copied. -/
theorem process_images_missing_input_aborts
    (isDir : String → Bool) (input_folder : String) (files : List FileEntry)
    (outcome : FileEntry → FileOutcome) (h : isDir input_folder = false) :
    process_images isDir input_folder files outcome
      = Except.error ("La carpeta de entrada no existe: " ++ input_folder) := by
  simp [process_images, h]

/-- Predicate of a file system in which no directory exists. -/
def neverDir : String → Bool := fun _ => false

/-- Witness for C8 at a concrete missing folder. -/
theorem process_images_missing_input_aborts_witness :
    process_images neverDir "missing" sampleFiles sampleOutcome
      = Except.error ("La carpeta de entrada no existe: " ++ "missing") :=
  process_images_missing_input_aborts neverDir "missing" sampleFiles
    sampleOutcome rfl

/-- C10: in every run and after every loop iteration the counters satisfy
meaningful_count less or equal processed_count (both start at 0 and live in
Nat, so they are never negative); an allow-listed file whose read raises is
still counted as processed while meaningful_count is unchanged (the
increment of line 135 happens before the file is encoded or classified);
and one iteration increments meaningful_count exactly when it appends the
file to the output folder, and leaves it unchanged exactly when it copies
nothing. -/
theorem process_images_count_invariant
    (files : List FileEntry) (outcome : FileEntry → FileOutcome) (n : Nat) :
    (runProcess outcome (files.take n)).meaningful
      ≤ (runProcess outcome (files.take n)).processed
    ∧ (∀ (s : PState) (f : FileEntry), hasValidExtension f = true →
        outcome f = FileOutcome.encodeRaises →
        (processFile outcome s f).processed = s.processed + 1
        ∧ (processFile outcome s f).meaningful = s.meaningful)
    ∧ (∀ (s : PState) (f : FileEntry),
        ((processFile outcome s f).meaningful = s.meaningful + 1
          ↔ (processFile outcome s f).copied = s.copied ++ [f.name])
        ∧ ((processFile outcome s f).meaningful = s.meaningful
          ↔ (processFile outcome s f).copied = s.copied)) := by
  refine ⟨?_, ?_, ?_⟩
  · rw [runProcess_spec]
    dsimp only
    refine List.Sublist.length_le (List.monotone_filter_right _ ?_)
    intro f hf
    simp only [Bool.and_eq_true] at hf
    exact hf.1
  · intro s f hval ho
    simp [processFile, hval, ho]
  · intro s f
    have hlen : ¬ (s.copied = s.copied ++ [f.name]) := by
      intro h2
      have h3 : s.copied.length = s.copied.length + 1 := by
        simpa using congrArg List.length h2
      omega
    have hlen2 : ¬ (s.copied ++ [f.name] = s.copied) := fun h => hlen h.symm
    by_cases hval : hasValidExtension f
    · cases ho : outcome f with
      | encodeRaises =>
        simp [processFile, hval, ho]
      | api r c =>
        by_cases hm : is_meaningful_image r
        · cases c with
          | true => simp [processFile, hval, ho, hm]
          | false => simp [processFile, hval, ho, hm]
        · have hm2 : is_meaningful_image r = false := by simpa using hm
          simp [processFile, hval, ho, hm2]
    · have hval2 : hasValidExtension f = false := by simpa using hval
      simp [processFile, hval2]

/-- Witness for C10: the invariant at a one-entry prefix and one raising
iteration from the initial state. -/
theorem process_images_count_invariant_witness :
    (runProcess raisingOutcome (sampleFiles.take 1)).meaningful
      ≤ (runProcess raisingOutcome (sampleFiles.take 1)).processed
    ∧ (processFile raisingOutcome initState
        { name := "photo.jpg", suffix := ".jpg" }).processed
        = initState.processed + 1
    ∧ (processFile raisingOutcome initState
        { name := "photo.jpg", suffix := ".jpg" }).meaningful
        = initState.meaningful := by
  have h := process_images_count_invariant sampleFiles raisingOutcome 1
  exact ⟨h.1,
    (h.2.1 initState { name := "photo.jpg", suffix := ".jpg" } (by decide) rfl).1,
    (h.2.1 initState { name := "photo.jpg", suffix := ".jpg" } (by decide) rfl).2⟩

/-! Pipeline B extractor.  An embedded image of a PDF page is modelled by
what the loop body of extract_images_from_pdf observes of it: whether
pdf_document.extract_image(xref) returns usable data (the truthiness test
of line 49), whether the decode-invert-save sequence of the try block of
lines 53-68 succeeds, and the extension reported by the PDF structure. -/

structure PdfImage where
  extractOk : Bool
  decodeOk : Bool
  ext : String
deriving DecidableEq

/-- An embedded image that yields an output file: extraction returned data
and the decode-invert-save sequence succeeded. -/
def imageOk (img : PdfImage) : Bool :=
  img.extractOk && img.decodeOk

/-- The file name template of line 61:
imagen_pagina{page_num + 1}_{img_index + 1}.{image_ext}. -/
def image_filename (page idx : Nat) (ext : String) : String :=
  "imagen_pagina" ++ toString page ++ "_" ++ toString idx ++ "." ++ ext

/-- Observable result of one run of extract_images_from_pdf: the names
written into the output directory, in write order, and the running counter
image_count of line 35. -/
structure ExtractResult where
  written : List String
  count : Nat
deriving DecidableEq

/-- Inner loop of extract_images_from_pdf (lines 45-71) over one page list,
carrying the 1-based image index (img_index + 1 of the enumerate of line
45): an image without extraction data is skipped silently (line 49); an
image whose decode raises is skipped by the except block of line 70; a
successful image appends its file and increments the counter (lines 61-68). -/
def extractPage (pageNum : Nat) : Nat → List PdfImage → ExtractResult → ExtractResult
  | _, [], acc => acc
  | idx, img :: rest, acc =>
    extractPage pageNum (idx + 1) rest
      (if img.extractOk then
        if img.decodeOk then
          { written := acc.written ++ [image_filename pageNum idx img.ext],
            count := acc.count + 1 }
        else acc
      else acc)

/-- Outer loop of extract_images_from_pdf (lines 38-42) over the pages,
carrying the 1-based page number (page_num + 1 of line 61). -/
def extractPages : Nat → List (List PdfImage) → ExtractResult → ExtractResult
  | _, [], acc => acc
  | pageNum, page :: rest, acc =>
    extractPages (pageNum + 1) rest (extractPage pageNum 1 page acc)

/-- Embedding of extract_images_from_pdf (extractimages.py lines 22-74):
the output directory is named after the stem of the PDF path (lines 27-29),
every page is visited in document order, and the final value of image_count
is returned (line 74).  The first component is the name of the output
directory. -/
def extract_images_from_pdf (pdfStem : String)
    (pages : List (List PdfImage)) : String × ExtractResult :=
  (pdfStem, extractPages 1 pages { written := [], count := 0 })

/-- Names the specification promises for one page: one file per successful
image, indexed by its 1-based position in the image list of the page. -/
def pageNamesFrom (pageNum : Nat) : Nat → List PdfImage → List String
  | _, [] => []
  | idx, img :: rest =>
    (if imageOk img then [image_filename pageNum idx img.ext] else [])
      ++ pageNamesFrom pageNum (idx + 1) rest

/-- Names the specification promises for a document starting at a given
1-based page number. -/
def namesFrom (pageNum : Nat) : List (List PdfImage) → List String
  | [] => []
  | page :: rest => pageNamesFrom pageNum 1 page ++ namesFrom (pageNum + 1) rest

/-- Names the specification promises for the whole document: page numbers
and image indices both start at 1. -/
def successNames (pages : List (List PdfImage)) : List String :=
  namesFrom 1 pages

/-- Number of successfully decoded embedded images of the document. -/
def successCount (pages : List (List PdfImage)) : Nat :=
  (pages.map (fun page => (page.filter imageOk).length)).sum

lemma extractPage_spec (pageNum : Nat) :
    ∀ (page : List PdfImage) (idx : Nat) (acc : ExtractResult),
      extractPage pageNum idx page acc =
        { written := acc.written ++ pageNamesFrom pageNum idx page,
          count := acc.count + (page.filter imageOk).length } := by
  intro page
  induction page with
  | nil => intro idx acc; simp [extractPage, pageNamesFrom]
  | cons img rest ih =>
    intro idx acc
    rw [extractPage, ih]
    cases he : img.extractOk with
    | false =>
      simp [pageNamesFrom, imageOk, he, List.filter_cons]
    | true =>
      cases hd : img.decodeOk with
      | false => simp [pageNamesFrom, imageOk, he, hd, List.filter_cons]
      | true =>
        simp [pageNamesFrom, imageOk, he, hd, List.filter_cons,
          Nat.add_assoc, Nat.add_comm 1]

lemma extractPages_spec :
    ∀ (pages : List (List PdfImage)) (pageNum : Nat) (acc : ExtractResult),
      extractPages pageNum pages acc =
        { written := acc.written ++ namesFrom pageNum pages,
          count := acc.count
            + (pages.map (fun page => (page.filter imageOk).length)).sum } := by
  intro pages
  induction pages with
  | nil => intro pageNum acc; simp [extractPages, namesFrom]
  | cons page rest ih =>
    intro pageNum acc
    rw [extractPages, ih, extractPage_spec]
    simp [namesFrom, Nat.add_assoc]

lemma pageNamesFrom_length (pageNum : Nat) :
    ∀ (page : List PdfImage) (idx : Nat),
      (pageNamesFrom pageNum idx page).length = (page.filter imageOk).length := by
  intro page
  induction page with
  | nil => intro idx; rfl
  | cons img rest ih =>
    intro idx
    cases hok : imageOk img with
    | false => simp [pageNamesFrom, hok, List.filter_cons, ih]
    | true => simp [pageNamesFrom, hok, List.filter_cons, ih, Nat.add_comm 1]

lemma namesFrom_length :
    ∀ (pages : List (List PdfImage)) (pageNum : Nat),
      (namesFrom pageNum pages).length
        = (pages.map (fun page => (page.filter imageOk).length)).sum := by
  intro pages
  induction pages with
  | nil => intro pageNum; rfl
  | cons page rest ih =>
    intro pageNum
    simp [namesFrom, pageNamesFrom_length, ih]

/-- C6: a run of extract_images_from_pdf writes, into the directory named
after the stem of the PDF, exactly the files the specification names — one
file imagen_pagina{page}_{index}.{ext} per successfully decoded embedded
image, with page the 1-based page number and index the 1-based position of
the image in the image list of its page — and returns the number of images
written. -/
theorem extract_images_naming_and_count (pdfStem : String)
    (pages : List (List PdfImage)) :
    extract_images_from_pdf pdfStem pages
      = (pdfStem, { written := successNames pages, count := successCount pages })
    ∧ (successNames pages).length = successCount pages := by
  constructor
  · rw [extract_images_from_pdf, extractPages_spec]
    simp [successNames, successCount]
  · rw [successNames, successCount, namesFrom_length]

lemma mem_pageNamesFrom (pageNum : Nat) :
    ∀ (page : List PdfImage) (idx i : Nat) (img : PdfImage),
      page.get? i = some img → imageOk img = true →
      image_filename pageNum (idx + i) img.ext ∈ pageNamesFrom pageNum idx page := by
  intro page
  induction page with
  | nil => intro idx i img h _; simp [List.get?] at h
  | cons img0 rest ih =>
    intro idx i img h hok
    cases i with
    | zero =>
      have himg : img0 = img := by simpa [List.get?] using h
      subst himg
      simp [pageNamesFrom, hok]
    | succ i2 =>
      have h2 : rest.get? i2 = some img := by simpa [List.get?] using h
      have hmem := ih (idx + 1) i2 img h2 hok
      have harith : idx + (i2 + 1) = idx + 1 + i2 := by omega
      rw [harith]
      exact List.mem_append_right _ hmem

lemma mem_namesFrom :
    ∀ (pages : List (List PdfImage)) (pageNum p i : Nat)
      (page : List PdfImage) (img : PdfImage),
      pages.get? p = some page → page.get? i = some img → imageOk img = true →
      image_filename (pageNum + p) (1 + i) img.ext ∈ namesFrom pageNum pages := by
  intro pages
  induction pages with
  | nil => intro pageNum p i page img h _ _; simp [List.get?] at h
  | cons page0 rest ih =>
    intro pageNum p i page img hp hi hok
    cases p with
    | zero =>
      have hpage : page0 = page := by simpa [List.get?] using hp
      subst hpage
      have hmem := mem_pageNamesFrom pageNum page0 1 i img hi hok
      simpa [namesFrom] using List.mem_append_left _ hmem
    | succ p2 =>
      have hp2 : rest.get? p2 = some page := by simpa [List.get?] using hp
      have hmem := ih (pageNum + 1) p2 i page img hp2 hi hok
      have harith : pageNum + (p2 + 1) = pageNum + 1 + p2 := by omega
      rw [harith]
      exact List.mem_append_right _ hmem

lemma filter_set_dead :
    ∀ (page : List PdfImage) (i : Nat) (img : PdfImage) (ext2 : String),
      page.get? i = some img → imageOk img = false →
      (page.set i { extractOk := false, decodeOk := false, ext := ext2 }).filter imageOk
        = page.filter imageOk := by
  intro page
  induction page with
  | nil => intro i img ext2 h _; simp [List.get?] at h
  | cons img0 rest ih =>
    intro i img ext2 h hbad
    have hdead : imageOk { extractOk := false, decodeOk := false, ext := ext2 } = false := rfl
    cases i with
    | zero =>
      have himg : img0 = img := by simpa [List.get?] using h
      subst himg
      simp only [List.set_cons_zero, List.filter_cons, hdead, hbad]
      simp
    | succ i2 =>
      have h2 : rest.get? i2 = some img := by simpa [List.get?] using h
      simp only [List.set_cons_succ, List.filter_cons]
      rw [ih i2 img ext2 h2 hbad]

lemma pageNamesFrom_set_dead (pageNum : Nat) :
    ∀ (page : List PdfImage) (idx i : Nat) (img : PdfImage) (ext2 : String),
      page.get? i = some img → imageOk img = false →
      pageNamesFrom pageNum idx
          (page.set i { extractOk := false, decodeOk := false, ext := ext2 })
        = pageNamesFrom pageNum idx page := by
  intro page
  induction page with
  | nil => intro idx i img ext2 h _; simp [List.get?] at h
  | cons img0 rest ih =>
    intro idx i img ext2 h hbad
    have hdead : imageOk { extractOk := false, decodeOk := false, ext := ext2 } = false := rfl
    cases i with
    | zero =>
      have himg : img0 = img := by simpa [List.get?] using h
      subst himg
      simp only [List.set_cons_zero, pageNamesFrom, hdead, hbad]
      simp
    | succ i2 =>
      have h2 : rest.get? i2 = some img := by simpa [List.get?] using h
      simp only [List.set_cons_succ, pageNamesFrom]
      rw [ih (idx + 1) i2 img ext2 h2 hbad]

lemma namesFrom_set_dead :
    ∀ (pages : List (List PdfImage)) (pageNum p i : Nat)
      (page : List PdfImage) (img : PdfImage) (ext2 : String),
      pages.get? p = some page → page.get? i = some img → imageOk img = false →
      namesFrom pageNum
          (pages.set p (page.set i { extractOk := false, decodeOk := false, ext := ext2 }))
        = namesFrom pageNum pages := by
  intro pages
  induction pages with
  | nil => intro pageNum p i page img ext2 h _ _; simp [List.get?] at h
  | cons page0 rest ih =>
    intro pageNum p i page img ext2 hp hi hbad
    cases p with
    | zero =>
      have hpage : page0 = page := by simpa [List.get?] using hp
      subst hpage
      simp only [List.set_cons_zero, namesFrom]
      rw [pageNamesFrom_set_dead pageNum page0 1 i img ext2 hi hbad]
    | succ p2 =>
      have hp2 : rest.get? p2 = some page := by simpa [List.get?] using hp
      simp only [List.set_cons_succ, namesFrom]
      rw [ih (pageNum + 1) p2 i page img ext2 hp2 hi hbad]

lemma countSum_set_dead :
    ∀ (pages : List (List PdfImage)) (p i : Nat)
      (page : List PdfImage) (img : PdfImage) (ext2 : String),
      pages.get? p = some page → page.get? i = some img → imageOk img = false →
      successCount
          (pages.set p (page.set i { extractOk := false, decodeOk := false, ext := ext2 }))
        = successCount pages := by
  intro pages
  induction pages with
  | nil => intro p i page img ext2 h _ _; simp [List.get?] at h
  | cons page0 rest ih =>
    intro p i page img ext2 hp hi hbad
    cases p with
    | zero =>
      have hpage : page0 = page := by simpa [List.get?] using hp
      subst hpage
      simp only [List.set_cons_zero, successCount, List.map_cons, List.sum_cons]
      rw [filter_set_dead page0 i img ext2 hi hbad]
    | succ p2 =>
      have hp2 : rest.get? p2 = some page := by simpa [List.get?] using hp
      simp only [List.set_cons_succ, successCount, List.map_cons, List.sum_cons]
      have hsum := ih p2 i page img ext2 hp2 hi hbad
      simp only [successCount] at hsum
      rw [hsum]

/-- C9: when the embedded image at 0-based position i of 0-based page p
yields no usable data or fails to decode, the run counts and writes exactly
the successful images, every other successful image of the document still
gets its file, and replacing the failing image by any other dead image
leaves the output of the run unchanged — the failure disturbs nothing. -/
theorem extract_images_skips_bad (pdfStem : String)
    (pages : List (List PdfImage)) (p i : Nat) (page : List PdfImage)
    (img : PdfImage) (hp : pages.get? p = some page)
    (hi : page.get? i = some img) (hbad : imageOk img = false) :
    ((extract_images_from_pdf pdfStem pages).2.count = successCount pages
      ∧ (extract_images_from_pdf pdfStem pages).2.written.length
          = successCount pages)
    ∧ (∀ (p2 i2 : Nat) (page2 : List PdfImage) (img2 : PdfImage),
        pages.get? p2 = some page2 → page2.get? i2 = some img2 →
        imageOk img2 = true →
        image_filename (p2 + 1) (i2 + 1) img2.ext
          ∈ (extract_images_from_pdf pdfStem pages).2.written)
    ∧ (∀ ext2 : String,
        extract_images_from_pdf pdfStem
            (pages.set p
              (page.set i { extractOk := false, decodeOk := false, ext := ext2 }))
          = extract_images_from_pdf pdfStem pages) := by
  refine ⟨⟨?_, ?_⟩, ?_, ?_⟩
  · rw [extract_images_from_pdf, extractPages_spec]
    simp [successCount]
  · rw [extract_images_from_pdf, extractPages_spec]
    simp [namesFrom_length, successCount]
  · intro p2 i2 page2 img2 hp2 hi2 hok2
    rw [extract_images_from_pdf, extractPages_spec]
    have hmem := mem_namesFrom pages 1 p2 i2 page2 img2 hp2 hi2 hok2
    simpa [Nat.add_comm] using hmem
  · intro ext2
    rw [extract_images_from_pdf, extract_images_from_pdf,
      extractPages_spec, extractPages_spec]
    rw [namesFrom_set_dead pages 1 p i page img ext2 hp hi hbad]
    have hc := countSum_set_dead pages p i page img ext2 hp hi hbad
    simp only [successCount] at hc
    rw [hc]

/-- Concrete two-page document for the C9 witness: page 1 has one good
image, page 2 has a failing image followed by a good one. -/
def c9PageA : List PdfImage :=
  [{ extractOk := true, decodeOk := true, ext := "png" }]

/-- Second page of the C9 witness document. -/
def c9PageB : List PdfImage :=
  [{ extractOk := true, decodeOk := false, ext := "png" },
   { extractOk := true, decodeOk := true, ext := "jpeg" }]

/-- The C9 witness document. -/
def c9Pages : List (List PdfImage) := [c9PageA, c9PageB]

/-- Witness for C9 at the concrete document. -/
theorem extract_images_skips_bad_witness :
    (extract_images_from_pdf "doc" c9Pages).2.count = successCount c9Pages
    ∧ image_filename 1 1 "png" ∈ (extract_images_from_pdf "doc" c9Pages).2.written
    ∧ extract_images_from_pdf "doc"
        (c9Pages.set 1
          (c9PageB.set 0 { extractOk := false, decodeOk := false, ext := "gif" }))
        = extract_images_from_pdf "doc" c9Pages := by
  have h := extract_images_skips_bad "doc" c9Pages 1 0 c9PageB
    { extractOk := true, decodeOk := false, ext := "png" } rfl rfl rfl
  refine ⟨h.1.1, ?_, h.2.2 "gif"⟩
  have h2 := h.2.1 0 0 c9PageA
    { extractOk := true, decodeOk := true, ext := "png" } rfl rfl rfl
  simpa using h2

end DataUtils
